import Mathlib

/-!
Verification of the widget-library specification against the TGUI sources.

The repository ships the widget class declarations (`Scrollbar.hpp`,
`TreeView.hpp`, `Label.hpp`) together with their member initializers and
documentation comments, but not the `.cpp` method bodies.  Member defaults
and documented behaviour are therefore taken from the headers; the missing
method bodies are modelled from the specification, and every such
definition is marked with a doc comment starting with `Modelled from the
spec:`.

Machine integers (`unsigned int`) are modelled as `Nat`; none of the
modelled operations can overflow a 32-bit unsigned value on the inputs the
spec talks about, and all clamping arithmetic is the truncated `Nat`
subtraction which coincides with `max (a - b) 0` over the integers.
Pixel coordinates (C++ `float`) are modelled as `ℚ`.
-/

/-- Rectangle with position and size, mirroring `tgui::FloatRect`
(coordinates modelled as `ℚ` instead of `float`). -/
structure FloatRect where
  left : ℚ
  top : ℚ
  width : ℚ
  height : ℚ

/-- Modelled from the spec: `isMouseOnWidget` style containment is a "pure
geometric test"; a point lies in a rectangle when it is within the
half-open span of the rectangle in both axes. -/
def FloatRect.contains (r : FloatRect) (p : ℚ × ℚ) : Bool :=
  decide (r.left ≤ p.1) && decide (p.1 < r.left + r.width) &&
  decide (r.top ≤ p.2) && decide (p.2 < r.top + r.height)

/-- Part of the scrollbar the mouse can interact with
(`Scrollbar::Part` in `Scrollbar.hpp`). -/
inductive Scrollbar.Part where
  | Track
  | Thumb
  | ArrowUp
  | ArrowDown
deriving DecidableEq

/-- State of a `tgui::Scrollbar`, with the members of `Scrollbar.hpp`
that the specified behaviour depends on.  `m_mouseDown` is the inherited
`Widget` flag recording that the left button went down on the widget. -/
structure Scrollbar where
  m_maximum : Nat
  m_value : Nat
  m_viewportSize : Nat
  m_verticalScroll : Bool
  m_scrollAmount : Nat
  m_autoHide : Bool
  m_mouseDown : Bool
  m_mouseDownOnThumb : Bool
  m_mouseDownOnArrow : Bool
  m_mouseDownOnThumbPos : ℚ × ℚ
  m_mouseHoverOverPart : Scrollbar.Part
  m_track : FloatRect
  m_thumb : FloatRect
  m_arrowUp : FloatRect
  m_arrowDown : FloatRect

/-- Scrollbar state produced by the default constructor: the values are the
member initializers of `Scrollbar.hpp` (lines 331-356): maximum 10,
value 0, viewport size 1, vertical orientation, scroll amount 1,
auto-hide on, no mouse interaction in progress. -/
def defaultScrollbar : Scrollbar :=
  { m_maximum := 10
    m_value := 0
    m_viewportSize := 1
    m_verticalScroll := true
    m_scrollAmount := 1
    m_autoHide := true
    m_mouseDown := false
    m_mouseDownOnThumb := false
    m_mouseDownOnArrow := false
    m_mouseDownOnThumbPos := (0, 0)
    m_mouseHoverOverPart := Scrollbar.Part.Thumb
    m_track := ⟨0, 0, 0, 0⟩
    m_thumb := ⟨0, 0, 0, 0⟩
    m_arrowUp := ⟨0, 0, 0, 0⟩
    m_arrowDown := ⟨0, 0, 0, 0⟩ }

/-- Largest value `setValue` can store.  The header documents it as
`getMaximum() - getViewportSize() if getMaximum() >= getViewportSize(),
otherwise 0`, which is exactly truncated `Nat` subtraction. -/
def Scrollbar.getMaxValue (s : Scrollbar) : Nat :=
  s.m_maximum - s.m_viewportSize

/-- Modelled from the spec: the body of `Scrollbar::setValue` is not in the
sources; the spec and the header doc say the argument is clamped to
`[0, max(maximum - viewportSize, 0)]`. -/
def Scrollbar.setValue (s : Scrollbar) (value : Nat) : Scrollbar :=
  { s with m_value := min value s.getMaxValue }

/-- Modelled from the spec: the body of `Scrollbar::setMaximum` is not in
the sources; the spec says the stored value is re-clamped after the
maximum changes. -/
def Scrollbar.setMaximum (s : Scrollbar) (maximum : Nat) : Scrollbar :=
  { s with
    m_maximum := maximum
    m_value := min s.m_value (maximum - s.m_viewportSize) }

/-- Modelled from the spec: the body of `Scrollbar::setViewportSize` is not
in the sources; the spec says the stored value is re-clamped after the
viewport size changes. -/
def Scrollbar.setViewportSize (s : Scrollbar) (viewport : Nat) : Scrollbar :=
  { s with
    m_viewportSize := viewport
    m_value := min s.m_value (s.m_maximum - viewport) }

/-- One call of a value-state setter of `Scrollbar`. -/
inductive ScrollbarOp where
  | setValue (v : Nat)
  | setMaximum (m : Nat)
  | setViewportSize (v : Nat)

/-- Apply one setter call. -/
def Scrollbar.applyOp (s : Scrollbar) : ScrollbarOp → Scrollbar
  | ScrollbarOp.setValue v => s.setValue v
  | ScrollbarOp.setMaximum m => s.setMaximum m
  | ScrollbarOp.setViewportSize v => s.setViewportSize v

/-- Apply a sequence of setter calls, first call first. -/
def Scrollbar.applyOps (s : Scrollbar) (ops : List ScrollbarOp) : Scrollbar :=
  ops.foldl Scrollbar.applyOp s

/-- Modelled from the spec: the body of `Scrollbar::leftMousePressed` is
not in the sources.  Per the spec state machine, a press inside the thumb
starts a thumb drag and records the press position (so the thumb does not
jump); a press inside an arrow immediately steps the value by
`scrollAmount` toward that arrow; the spec does not describe presses on
the bare track, which are modelled as capture only. -/
def Scrollbar.leftMousePressed (s : Scrollbar) (pos : ℚ × ℚ) : Scrollbar :=
  let s := { s with m_mouseDown := true }
  if s.m_thumb.contains pos then
    { s with m_mouseDownOnThumb := true, m_mouseDownOnThumbPos := pos }
  else if s.m_arrowUp.contains pos then
    { s with
      m_mouseDownOnArrow := true
      m_value := s.m_value - s.m_scrollAmount }
  else if s.m_arrowDown.contains pos then
    { s with
      m_mouseDownOnArrow := true
      m_value := min (s.m_value + s.m_scrollAmount) s.getMaxValue }
  else
    s

/-- Fraction of the scroll range designated by a pointer position during a
thumb drag: the thumb position implied by the pointer (press-relative
offset preserved), measured from the track start, over the length the
thumb can travel.  Division by a zero length yields the defined `ℚ`
sentinel 0. -/
def Scrollbar.dragFrac (s : Scrollbar) (pos : ℚ × ℚ) : ℚ :=
  if s.m_verticalScroll then
    (pos.2 - (s.m_mouseDownOnThumbPos.2 - s.m_thumb.top) - s.m_track.top)
      / (s.m_track.height - s.m_thumb.height)
  else
    (pos.1 - (s.m_mouseDownOnThumbPos.1 - s.m_thumb.left) - s.m_track.left)
      / (s.m_track.width - s.m_thumb.width)

/-- Round a rational to the nearest natural number and clamp it to
`[0, hi]`. -/
def ratToClampedNat (q : ℚ) (hi : Nat) : Nat :=
  if q ≤ 0 then 0 else min (⌊q + 1/2⌋).toNat hi

/-- Modelled from the spec: the value computed while the thumb is dragged,
"proportionally to `(maximum - viewportSize)` over the track length,
clamped to the valid range". -/
def Scrollbar.dragValue (s : Scrollbar) (pos : ℚ × ℚ) : Nat :=
  ratToClampedNat (s.dragFrac pos * (s.getMaxValue : ℚ)) s.getMaxValue

/-- Which part of the scrollbar a position hovers over. -/
def Scrollbar.hoverPart (s : Scrollbar) (pos : ℚ × ℚ) : Scrollbar.Part :=
  if s.m_thumb.contains pos then Scrollbar.Part.Thumb
  else if s.m_arrowUp.contains pos then Scrollbar.Part.ArrowUp
  else if s.m_arrowDown.contains pos then Scrollbar.Part.ArrowDown
  else Scrollbar.Part.Track

/-- Modelled from the spec: the body of `Scrollbar::mouseMoved` is not in
the sources.  While the left button is down on the thumb the value is
recomputed from the pointer position with no hit test on the pointer
position (mouse capture); otherwise only the hover bookkeeping changes. -/
def Scrollbar.mouseMoved (s : Scrollbar) (pos : ℚ × ℚ) : Scrollbar :=
  if s.m_mouseDown && s.m_mouseDownOnThumb then
    { s with m_value := s.dragValue pos }
  else
    { s with m_mouseHoverOverPart := s.hoverPart pos }

/-- Modelled from the spec: the `ValueChanged` payloads `onValueChange`
emits during one `mouseMoved` call — the new value exactly when it differs
from the stored one. -/
def Scrollbar.mouseMovedEmits (s : Scrollbar) (pos : ℚ × ℚ) : List Nat :=
  if s.m_mouseDown && s.m_mouseDownOnThumb && (s.dragValue pos != s.m_value) then
    [s.dragValue pos]
  else
    []

/-- Modelled from the spec: the body of `Scrollbar::leftMouseReleased` is
not in the sources; per the spec state machine a release returns the
scrollbar to the idle state. -/
def Scrollbar.leftMouseReleased (s : Scrollbar) (_pos : ℚ × ℚ) : Scrollbar :=
  { s with
    m_mouseDown := false
    m_mouseDownOnThumb := false
    m_mouseDownOnArrow := false }

/-- Modelled from the spec: the body of
`Scrollbar::leftMouseButtonNoLongerDown` is not in the sources; the spec
makes it the forced-recovery transition to the idle state from any
state. -/
def Scrollbar.leftMouseButtonNoLongerDown (s : Scrollbar) : Scrollbar :=
  { s with
    m_mouseDown := false
    m_mouseDownOnThumb := false
    m_mouseDownOnArrow := false }

/-- Apply a sequence of `mouseMoved` events, first event first. -/
def Scrollbar.applyMoves (s : Scrollbar) (moves : List (ℚ × ℚ)) : Scrollbar :=
  moves.foldl Scrollbar.mouseMoved s

/-- Concrete scrollbar used to instantiate the interaction theorems:
a vertical scrollbar with a 16x200 track whose thumb occupies the top
16x20 pixels. -/
def sampleScrollbar : Scrollbar :=
  { defaultScrollbar with
    m_maximum := 100
    m_viewportSize := 10
    m_track := ⟨0, 0, 16, 200⟩
    m_thumb := ⟨0, 0, 16, 20⟩
    m_arrowUp := ⟨0, -16, 16, 16⟩
    m_arrowDown := ⟨0, 200, 16, 16⟩ }

/-- Internal tree node of `tgui::TreeView` (`TreeView::Node` in
`TreeView.hpp`): label text, `expanded` flag (header default `true`), and
the ordered list of owned child nodes.  The `depth` field and the
non-owning parent back-reference of the C++ struct are derivable from the
position in the forest and are not part of the functional model; the
rendering-only `Text` payload is reduced to its string.  This type also
serves as the read-only `TreeView::ConstNode` view returned by
`getNodes`. -/
inductive TreeView.Node where
  | mk (text : String) (expanded : Bool) (nodes : List TreeView.Node)

/-- Label text of a node. -/
def TreeView.Node.text : TreeView.Node → String
  | TreeView.Node.mk t _ _ => t

/-- Expanded flag of a node. -/
def TreeView.Node.expanded : TreeView.Node → Bool
  | TreeView.Node.mk _ e _ => e

/-- Child list of a node. -/
def TreeView.Node.nodes : TreeView.Node → List TreeView.Node
  | TreeView.Node.mk _ _ cs => cs

/-- Modelled from the spec: the body of `TreeView::updateVisibleNodes` is
not in the sources; the spec describes the visible-node projection as a
depth-first pre-order traversal that includes a node and then — only if
`expanded` — its children.  Each visible node is paired with its index
path into the forest; a path is a head index plus the list of deeper
indices, so paths are nonempty by construction. -/
def visibleWithPaths : List TreeView.Node → List ((Nat × List Nat) × TreeView.Node)
  | [] => []
  | TreeView.Node.mk t e cs :: rest =>
    ((0, []), TreeView.Node.mk t e cs)
      :: ((if e then visibleWithPaths cs else []).map
            (fun pm => ((0, pm.1.1 :: pm.1.2), pm.2)))
      ++ (visibleWithPaths rest).map (fun pm => ((pm.1.1 + 1, pm.1.2), pm.2))

/-- The flat visible-node list (`TreeView::m_visibleNodes`): the
projection of `visibleWithPaths` onto its nodes. -/
def visibleFlatten (f : List TreeView.Node) : List TreeView.Node :=
  (visibleWithPaths f).map Prod.snd

/-- Node of a forest designated by an index path, if the path is valid. -/
def pathNode : List TreeView.Node → Nat → List Nat → Option TreeView.Node
  | f, i, [] => f[i]?
  | f, i, j :: p =>
    match f[i]? with
    | some n => pathNode n.nodes j p
    | none => none

/-- Whether every proper ancestor of the node at the given index path is
expanded (the node's own flag is not considered). -/
def ancOk : List TreeView.Node → Nat → List Nat → Bool
  | _, _, [] => true
  | f, i, j :: p =>
    match f[i]? with
    | some n => n.expanded && ancOk n.nodes j p
    | none => false

/-- Modelled from the spec: hierarchy lookup walks the forest "matching
consecutive path segments by text equality", descending into the first
sibling whose text matches each segment. -/
def findNode : List TreeView.Node → List String → Option TreeView.Node
  | _, [] => none
  | [], _ :: _ => none
  | n :: fr, [t] => if n.text == t then some n else findNode fr [t]
  | n :: fr, t :: u :: rest =>
    if n.text == t then findNode n.nodes (u :: rest)
    else findNode fr (t :: u :: rest)

/-- Whether a hierarchy path matches the node forest. -/
def matchesPath (f : List TreeView.Node) (h : List String) : Bool :=
  (findNode f h).isSome

/-- Modelled from the spec: the body of `TreeView::addItem` is not in the
sources.  The call walks the forest matching consecutive segments by text
equality; `createParents` controls whether missing intermediate segments
are synthesized (created nodes are expanded, the header default); the
leaf is appended to the found parent's child list.  `none` signals the
boolean-false failure case; an empty hierarchy names no item and fails. -/
def addItemF : List TreeView.Node → List String → Bool → Option (List TreeView.Node)
  | _, [], _ => none
  | f, [t], _ => some (f ++ [TreeView.Node.mk t true []])
  | [], t :: u :: rest, cp =>
    if cp then (addItemF [] (u :: rest) cp).map (fun cs' => [TreeView.Node.mk t true cs'])
    else none
  | n :: fr, t :: u :: rest, cp =>
    if n.text == t then
      (addItemF n.nodes (u :: rest) cp).map
        (fun cs' => TreeView.Node.mk n.text n.expanded cs' :: fr)
    else
      (addItemF fr (t :: u :: rest) cp).map (fun f' => n :: f')

/-- Modelled from the spec: the body of `TreeView::removeItem` is not in
the sources.  The call walks the forest matching segments by text
equality and removes the designated node; `removeParentsWhenEmpty`
propagates deletion upward while a parent's child list becomes empty.
`none` signals the boolean-false failure case. -/
def removeItemF : List TreeView.Node → List String → Bool → Option (List TreeView.Node)
  | _, [], _ => none
  | [], _ :: _, _ => none
  | n :: fr, [t], rpe =>
    if n.text == t then some fr else (removeItemF fr [t] rpe).map (fun f' => n :: f')
  | n :: fr, t :: u :: rest, rpe =>
    if n.text == t then
      (removeItemF n.nodes (u :: rest) rpe).map
        (fun cs' =>
          if cs'.isEmpty && rpe then fr
          else TreeView.Node.mk n.text n.expanded cs' :: fr)
    else
      (removeItemF fr (t :: u :: rest) rpe).map (fun f' => n :: f')

/-- Modelled from the spec: the body of `TreeView::expandOrCollapse` is
not in the sources.  The designated node's `expanded` flag is set to the
requested state; `none` reports that nothing changed (node not found, or
its flag already had the requested state — the projection is only
recomputed when expand/collapse state actually changes). -/
def expandOrCollapseF : List TreeView.Node → List String → Bool → Option (List TreeView.Node)
  | _, [], _ => none
  | [], _ :: _, _ => none
  | n :: fr, [t], e =>
    if n.text == t then
      (if n.expanded == e then none
       else some (TreeView.Node.mk n.text e n.nodes :: fr))
    else (expandOrCollapseF fr [t] e).map (fun f' => n :: f')
  | n :: fr, t :: u :: rest, e =>
    if n.text == t then
      (expandOrCollapseF n.nodes (u :: rest) e).map
        (fun cs' => TreeView.Node.mk n.text n.expanded cs' :: fr)
    else (expandOrCollapseF fr (t :: u :: rest) e).map (fun f' => n :: f')

/-- Modelled from the spec: `expandAll`/`collapseAll` set every node's
`expanded` flag in the whole forest. -/
def setAllExpanded : Bool → List TreeView.Node → List TreeView.Node
  | _, [] => []
  | e, TreeView.Node.mk t _ cs :: fr =>
    TreeView.Node.mk t e (setAllExpanded e cs) :: setAllExpanded e fr

/-- Text path (hierarchy of labels) of the node at an index path. -/
def textPathOf : List TreeView.Node → Nat → List Nat → List String
  | f, i, [] =>
    match f[i]? with
    | some n => [n.text]
    | none => []
  | f, i, j :: p =>
    match f[i]? with
    | some n => n.text :: textPathOf n.nodes j p
    | none => []

/-- Modelled from the spec: the selection is stored as an index into the
visible-node list; the index of the node with the given text hierarchy,
or -1 when it is not visible. -/
def selIdx (f : List TreeView.Node) (h : List String) : Int :=
  match (visibleWithPaths f).findIdx? (fun pm => textPathOf f pm.1.1 pm.1.2 == h) with
  | some k => (k : Int)
  | none => -1

/-- State of a `tgui::TreeView`: the owned node forest, the derived
visible-node projection, and the selection index into the visible list
(`-1` = no selection), per `TreeView.hpp` lines 449-453. -/
structure TreeView where
  m_nodes : List TreeView.Node
  m_visibleNodes : List TreeView.Node
  m_selectedItem : Int

/-- A freshly constructed tree view: no nodes, nothing visible, no
selection (`m_selectedItem = -1` is the header member initializer). -/
def emptyTreeView : TreeView :=
  { m_nodes := [], m_visibleNodes := [], m_selectedItem := -1 }

/-- Modelled from the spec: `addItem` wrapper.  On success the visible
projection is recomputed in full and the selection index is invalidated;
on failure the state is untouched and `false` is returned. -/
def TreeView.addItem (st : TreeView) (h : List String) (cp : Bool) : TreeView × Bool :=
  match addItemF st.m_nodes h cp with
  | some f' =>
    ({ m_nodes := f', m_visibleNodes := visibleFlatten f', m_selectedItem := -1 }, true)
  | none => (st, false)

/-- Modelled from the spec: `removeItem` wrapper, as for `addItem`. -/
def TreeView.removeItem (st : TreeView) (h : List String) (rpe : Bool) : TreeView × Bool :=
  match removeItemF st.m_nodes h rpe with
  | some f' =>
    ({ m_nodes := f', m_visibleNodes := visibleFlatten f', m_selectedItem := -1 }, true)
  | none => (st, false)

/-- Modelled from the spec: `selectItem` succeeds exactly when the
hierarchy matches the forest, storing the selection index; on failure it
returns `false` with no state mutation. -/
def TreeView.selectItem (st : TreeView) (h : List String) : TreeView × Bool :=
  if matchesPath st.m_nodes h then
    ({ st with m_selectedItem := selIdx st.m_nodes h }, true)
  else (st, false)

/-- Modelled from the spec: `deselectItem` clears the selection. -/
def TreeView.deselectItem (st : TreeView) : TreeView :=
  { st with m_selectedItem := -1 }

/-- Modelled from the spec: shared expand/collapse dispatch
(`TreeView::expandOrCollapse` returns a boolean; the public `expand` and
`collapse` discard it).  When the flag actually changes, the visible
projection is recomputed in full and the selection index invalidated. -/
def TreeView.expandOrCollapse (st : TreeView) (h : List String) (e : Bool) : TreeView × Bool :=
  match expandOrCollapseF st.m_nodes h e with
  | some f' =>
    ({ m_nodes := f', m_visibleNodes := visibleFlatten f', m_selectedItem := -1 }, true)
  | none => (st, false)

/-- Modelled from the spec: `TreeView::expand`. -/
def TreeView.expandItem (st : TreeView) (h : List String) : TreeView :=
  (st.expandOrCollapse h true).1

/-- Modelled from the spec: `TreeView::collapse`. -/
def TreeView.collapse (st : TreeView) (h : List String) : TreeView :=
  (st.expandOrCollapse h false).1

/-- Modelled from the spec: `TreeView::expandAll`. -/
def TreeView.expandAll (st : TreeView) : TreeView :=
  { m_nodes := setAllExpanded true st.m_nodes
    m_visibleNodes := visibleFlatten (setAllExpanded true st.m_nodes)
    m_selectedItem := -1 }

/-- Modelled from the spec: `TreeView::collapseAll`. -/
def TreeView.collapseAll (st : TreeView) : TreeView :=
  { m_nodes := setAllExpanded false st.m_nodes
    m_visibleNodes := visibleFlatten (setAllExpanded false st.m_nodes)
    m_selectedItem := -1 }

/-- Modelled from the spec: `TreeView::removeAllItems`. -/
def TreeView.removeAllItems (_st : TreeView) : TreeView :=
  { m_nodes := [], m_visibleNodes := [], m_selectedItem := -1 }

/-- `TreeView::getNodes`: the read-only view of the node forest (our node
type already is the `ConstNode` shape: text, expanded flag, children). -/
def TreeView.getNodes (st : TreeView) : List TreeView.Node :=
  st.m_nodes

/-- One public tree-view call that can change structure, expand/collapse
state or selection. -/
inductive TreeOp where
  | addItem (h : List String) (createParents : Bool)
  | removeItem (h : List String) (removeParentsWhenEmpty : Bool)
  | selectItem (h : List String)
  | deselectItem
  | expandItem (h : List String)
  | collapseItem (h : List String)
  | expandAll
  | collapseAll
  | removeAllItems

/-- Apply one tree-view call (discarding the returned boolean). -/
def applyTreeOp (st : TreeView) : TreeOp → TreeView
  | TreeOp.addItem h cp => (st.addItem h cp).1
  | TreeOp.removeItem h rpe => (st.removeItem h rpe).1
  | TreeOp.selectItem h => (st.selectItem h).1
  | TreeOp.deselectItem => st.deselectItem
  | TreeOp.expandItem h => st.expandItem h
  | TreeOp.collapseItem h => st.collapse h
  | TreeOp.expandAll => st.expandAll
  | TreeOp.collapseAll => st.collapseAll
  | TreeOp.removeAllItems => st.removeAllItems

/-- Apply a sequence of tree-view calls, first call first. -/
def applyTreeOps (st : TreeView) (ops : List TreeOp) : TreeView :=
  ops.foldl applyTreeOp st

/-- The derived visible-node list is exactly the projection of the node
forest. -/
def Consistent (st : TreeView) : Prop :=
  st.m_visibleNodes = visibleFlatten st.m_nodes

/-- State of a `tgui::Label` as far as the specified auto-size behaviour
is concerned: its text, size, and the `m_autoSize` flag whose header
member initializer is `true` (`Label.hpp` line 322). -/
structure Label where
  m_text : String
  m_autoSize : Bool
  m_size : ℚ × ℚ

/-- A freshly constructed label: auto-sizing (header member initializer),
empty text, zero size. -/
def defaultLabel : Label :=
  { m_text := "", m_autoSize := true, m_size := (0, 0) }

/-- Modelled from the spec: the body of `Label::setSize` is not in the
sources; the header doc states "When this function is called, the label
will no longer be auto-sizing", and the spec says setting an explicit
size disables auto-size mode. -/
def Label.setSize (l : Label) (size : ℚ × ℚ) : Label :=
  { l with m_size := size, m_autoSize := false }

/-- `Label::setAutoSize`. -/
def Label.setAutoSize (l : Label) (autoSize : Bool) : Label :=
  { l with m_autoSize := autoSize }

/-- `Label::getAutoSize`. -/
def Label.getAutoSize (l : Label) : Bool :=
  l.m_autoSize

/-- Concrete scrollbar in mid thumb-drag, used to instantiate the
dragging theorems. -/
def sampleDragging : Scrollbar :=
  { sampleScrollbar with
    m_mouseDown := true
    m_mouseDownOnThumb := true
    m_mouseDownOnThumbPos := (8, 10) }

/-- Concrete forest with a collapsed root whose only child is itself
collapsed. -/
def sampleForestCC : List TreeView.Node :=
  [TreeView.Node.mk "A" false [TreeView.Node.mk "B" false []]]

/-- Concrete tree view holding one expanded root named "A". -/
def sampleTreeA : TreeView :=
  { m_nodes := [TreeView.Node.mk "A" true []]
    m_visibleNodes := [TreeView.Node.mk "A" true []]
    m_selectedItem := -1 }

/-- Concrete tree view whose root "A" is collapsed over one child "B". -/
def sampleTreeCollapsed : TreeView :=
  { m_nodes := [TreeView.Node.mk "A" false [TreeView.Node.mk "B" true []]]
    m_visibleNodes := [TreeView.Node.mk "A" false [TreeView.Node.mk "B" true []]]
    m_selectedItem := -1 }

theorem TreeView.Node.text_mk (t e cs) : (TreeView.Node.mk t e cs).text = t := rfl

theorem TreeView.Node.expanded_mk (t e cs) : (TreeView.Node.mk t e cs).expanded = e := rfl

theorem TreeView.Node.nodes_mk (t e cs) : (TreeView.Node.mk t e cs).nodes = cs := rfl

attribute [simp] TreeView.Node.text_mk TreeView.Node.expanded_mk TreeView.Node.nodes_mk

/-- Unfolding equation of `visibleWithPaths` on a nonempty forest. -/
theorem vwp_unfold (t : String) (e : Bool) (cs rest : List TreeView.Node) :
    visibleWithPaths (TreeView.Node.mk t e cs :: rest)
      = ((0, []), TreeView.Node.mk t e cs)
          :: ((if e then visibleWithPaths cs else []).map
                (fun pm => ((0, pm.1.1 :: pm.1.2), pm.2)))
          ++ (visibleWithPaths rest).map (fun pm => ((pm.1.1 + 1, pm.1.2), pm.2)) := by
  simp [visibleWithPaths]

/-- Membership of a path starting with index 0 in the projection of a
nonempty forest. -/
theorem vwp_cons_zero (t : String) (e : Bool) (cs rest : List TreeView.Node)
    (p : List Nat) (m : TreeView.Node) :
    (((0, p), m) ∈ visibleWithPaths (TreeView.Node.mk t e cs :: rest))
      ↔ ((p = [] ∧ m = TreeView.Node.mk t e cs)
          ∨ (e = true ∧ ∃ j p', p = j :: p'
                ∧ ((j, p'), m) ∈ visibleWithPaths cs)) := by
  rw [vwp_unfold]
  constructor
  · intro h
    rcases List.mem_cons.mp h with h | h
    · obtain ⟨h1, h2⟩ := Prod.mk.injEq .. ▸ h
      exact Or.inl ⟨congrArg Prod.snd h1, h2⟩
    · rcases List.mem_append.mp h with h | h
      · obtain ⟨a, ha, heq⟩ := List.mem_map.mp h
        obtain ⟨⟨j, p'⟩, m'⟩ := a
        cases e with
        | false => simp at ha
        | true =>
          simp only [if_true] at ha
          simp only [Prod.mk.injEq] at heq
          obtain ⟨⟨-, h2⟩, h3⟩ := heq
          exact Or.inr ⟨rfl, j, p', h2.symm, h3 ▸ ha⟩
      · obtain ⟨a, ha, heq⟩ := List.mem_map.mp h
        obtain ⟨⟨j, p'⟩, m'⟩ := a
        simp only [Prod.mk.injEq] at heq
        exact absurd heq.1.1 (Nat.succ_ne_zero j)
  · rintro (⟨rfl, rfl⟩ | ⟨rfl, j, p', rfl, hmem⟩)
    · exact List.mem_cons_self _ _
    · refine List.mem_cons_of_mem _ (List.mem_append_left _ ?_)
      exact List.mem_map.mpr ⟨((j, p'), m), by simpa using hmem, rfl⟩

/-- Membership of a path starting with a positive index steps over the
first tree of the forest. -/
theorem vwp_cons_succ (n : TreeView.Node) (rest : List TreeView.Node)
    (i : Nat) (p : List Nat) (m : TreeView.Node) :
    (((i + 1, p), m) ∈ visibleWithPaths (n :: rest))
      ↔ (((i, p), m) ∈ visibleWithPaths rest) := by
  obtain ⟨t, e, cs⟩ := n
  rw [vwp_unfold]
  constructor
  · intro h
    rcases List.mem_cons.mp h with h | h
    · simp only [Prod.mk.injEq] at h
      exact absurd h.1.1 (Nat.succ_ne_zero i)
    · rcases List.mem_append.mp h with h | h
      · obtain ⟨a, ha, heq⟩ := List.mem_map.mp h
        simp only [Prod.mk.injEq] at heq
        exact absurd heq.1.1.symm (Nat.succ_ne_zero i)
      · obtain ⟨a, ha, heq⟩ := List.mem_map.mp h
        obtain ⟨⟨j, p'⟩, m'⟩ := a
        simp only [Prod.mk.injEq] at heq
        obtain ⟨⟨h1, h2⟩, h3⟩ := heq
        have hj : j = i := by omega
        subst hj h2 h3
        exact ha
  · intro hmem
    refine List.mem_cons_of_mem _ (List.mem_append_right _ ?_)
    exact List.mem_map.mpr ⟨((i, p), m), hmem, rfl⟩

/-- Membership in the projection, one path step at a time. -/
theorem vwp_head (f : List TreeView.Node) (i : Nat) (p : List Nat)
    (m : TreeView.Node) :
    (((i, p), m) ∈ visibleWithPaths f)
      ↔ (∃ n, f[i]? = some n
          ∧ ((p = [] ∧ m = n)
              ∨ (n.expanded = true ∧ ∃ j p', p = j :: p'
                    ∧ ((j, p'), m) ∈ visibleWithPaths n.nodes))) := by
  induction f generalizing i with
  | nil => simp [visibleWithPaths]
  | cons n rest ih =>
    obtain ⟨t, e, cs⟩ := n
    cases i with
    | zero =>
      rw [vwp_cons_zero]
      constructor
      · rintro (⟨rfl, rfl⟩ | ⟨he, j, p', rfl, hmem⟩)
        · exact ⟨TreeView.Node.mk t e cs, by simp, Or.inl ⟨rfl, rfl⟩⟩
        · exact ⟨TreeView.Node.mk t e cs, by simp,
            Or.inr ⟨by simp [he], j, p', rfl, by simpa using hmem⟩⟩
      · rintro ⟨n', hn', h⟩
        simp only [List.getElem?_cons_zero, Option.some.injEq] at hn'
        subst hn'
        rcases h with ⟨rfl, rfl⟩ | ⟨he, j, p', rfl, hmem⟩
        · exact Or.inl ⟨rfl, rfl⟩
        · exact Or.inr ⟨by simpa using he, j, p', rfl, by simpa using hmem⟩
    | succ i =>
      rw [vwp_cons_succ, ih]
      simp only [List.getElem?_cons_succ]

/-- A node is in the visible projection, at its own path, exactly when the
path is valid and all its proper ancestors are expanded. -/
theorem mem_vwp_iff (f : List TreeView.Node) (i : Nat) (p : List Nat)
    (m : TreeView.Node) :
    (((i, p), m) ∈ visibleWithPaths f)
      ↔ (pathNode f i p = some m ∧ ancOk f i p = true) := by
  induction p generalizing f i with
  | nil =>
    rw [vwp_head]
    simp only [pathNode, ancOk, and_true]
    constructor
    · rintro ⟨n, hn, h⟩
      rcases h with ⟨-, rfl⟩ | ⟨-, j, p', hcontra, -⟩
      · exact hn
      · exact absurd hcontra (by simp)
    · intro h
      exact ⟨m, h, Or.inl (by simp)⟩
  | cons j p' ih =>
    rw [vwp_head]
    constructor
    · rintro ⟨n, hn, h⟩
      rcases h with ⟨hcontra, -⟩ | ⟨he, j', p'', heq, hmem⟩
      · exact absurd hcontra (by simp)
      · obtain ⟨rfl, rfl⟩ : j = j' ∧ p' = p'' :=
          ⟨(List.cons.inj heq).1, (List.cons.inj heq).2⟩
        rw [ih] at hmem
        refine ⟨?_, ?_⟩
        · simp only [pathNode, hn]
          exact hmem.1
        · simp only [ancOk, hn, he, Bool.true_and]
          exact hmem.2
    · rintro ⟨h1, h2⟩
      simp only [pathNode] at h1
      simp only [ancOk] at h2
      cases hn : f[i]? with
      | none => rw [hn] at h1; exact absurd h1 (by simp)
      | some n =>
        rw [hn] at h1 h2
        simp only [Bool.and_eq_true] at h2
        exact ⟨n, rfl, Or.inr ⟨h2.1, j, p', rfl,
          (ih n.nodes j).mpr ⟨h1, h2.2⟩⟩⟩

/-- Along a path whose ancestors are all expanded, every node strictly
above the endpoint is expanded. -/
theorem ancOk_expanded_of_strict_ancestor :
    ∀ (p : List Nat) (f : List TreeView.Node) (i : Nat) (q : List Nat)
      (n : TreeView.Node),
      ancOk f i q = true → pathNode f i p = some n → p <+: q → p ≠ q →
      n.expanded = true := by
  intro p
  induction p with
  | nil =>
    intro f i q n hanc hpath hpre hne
    obtain ⟨r, rfl⟩ := hpre
    cases r with
    | nil => exact absurd rfl hne
    | cons j q' =>
      simp only [pathNode] at hpath
      simp only [List.nil_append, ancOk, hpath] at hanc
      exact ((Bool.and_eq_true _ _).mp hanc).1
  | cons k p' ih =>
    intro f i q n hanc hpath hpre hne
    obtain ⟨r, rfl⟩ := hpre
    simp only [pathNode] at hpath
    cases hn0 : f[i]? with
    | none => rw [hn0] at hpath; exact absurd hpath (by simp)
    | some n0 =>
      rw [hn0] at hpath
      simp only [List.cons_append, ancOk, hn0, Bool.and_eq_true] at hanc
      refine ih n0.nodes k (p' ++ r) n hanc.2 hpath ⟨r, rfl⟩ ?_
      intro hcontra
      exact hne (by simpa using congrArg (List.cons k) hcontra)

/-- A lookup miss makes `removeItemF` fail. -/
theorem removeItemF_not_found : ∀ (h : List String) (f : List TreeView.Node) (rpe : Bool),
    findNode f h = none → removeItemF f h rpe = none := by
  intro h
  induction h with
  | nil =>
    intro f rpe _
    cases f <;> simp [removeItemF]
  | cons t h' ih =>
    intro f rpe hfind
    cases h' with
    | nil =>
      clear ih
      induction f with
      | nil => simp [removeItemF]
      | cons n fr ihf =>
        by_cases ht : (n.text == t) = true
        · simp [findNode, ht] at hfind
        · simp only [findNode, ht, if_false] at hfind
          simp only [removeItemF, ht, if_false]
          rw [ihf hfind]
          rfl
    | cons u rest =>
      induction f with
      | nil => simp [removeItemF]
      | cons n fr ihf =>
        by_cases ht : (n.text == t) = true
        · simp only [findNode, ht, if_true] at hfind
          simp only [removeItemF, ht, if_true]
          rw [ih n.nodes rpe hfind]
          rfl
        · simp only [findNode, ht, if_false] at hfind
          simp only [removeItemF, ht, if_false]
          rw [ihf hfind]
          rfl

/-- When the parent part of the hierarchy misses, `addItemF` without
parent creation fails. -/
theorem addItemF_parent_not_found :
    ∀ (rest : List String) (t u : String) (f : List TreeView.Node),
    findNode f ((t :: u :: rest).dropLast) = none →
    addItemF f (t :: u :: rest) false = none := by
  intro rest
  induction rest with
  | nil =>
    intro t u f hfind
    induction f with
    | nil => simp [addItemF]
    | cons n fr ihf =>
      simp only [List.dropLast] at hfind ihf
      by_cases ht : (n.text == t) = true
      · simp [findNode, ht] at hfind
      · simp only [findNode, ht, if_false] at hfind
        simp only [addItemF, ht, if_false]
        rw [ihf hfind]
        rfl
  | cons v rest' ih =>
    intro t u f hfind
    induction f with
    | nil => simp [addItemF]
    | cons n fr ihf =>
      by_cases ht : (n.text == t) = true
      · have hfind' : findNode n.nodes ((u :: v :: rest').dropLast) = none := by
          simp only [List.dropLast, findNode, ht, if_true] at hfind
          simpa using hfind
        simp only [addItemF, ht, if_true]
        rw [ih u v n.nodes hfind']
        rfl
      · have hfind' : findNode fr ((t :: u :: v :: rest').dropLast) = none := by
          simp only [List.dropLast, findNode, ht, if_false] at hfind
          simpa [List.dropLast, findNode, ht] using hfind
        simp only [addItemF, ht, if_false]
        rw [ihf hfind']
        rfl

/-- Setting the expand flag a node already has changes nothing:
`expandOrCollapseF` reports no change. -/
theorem expandOrCollapseF_already :
    ∀ (h : List String) (f : List TreeView.Node) (e : Bool) (n : TreeView.Node),
    findNode f h = some n → n.expanded = e → expandOrCollapseF f h e = none := by
  intro h
  induction h with
  | nil => intro f e n hfind _; simp [findNode] at hfind
  | cons t h' ih =>
    intro f e n hfind hexp
    cases h' with
    | nil =>
      clear ih
      induction f with
      | nil => simp [findNode] at hfind
      | cons n0 fr ihf =>
        by_cases ht : (n0.text == t) = true
        · simp only [findNode, ht, if_true, Option.some.injEq] at hfind
          subst hfind
          simp only [expandOrCollapseF, ht, if_true, hexp, beq_self_eq_true]
        · simp only [findNode, ht, if_false] at hfind
          simp only [expandOrCollapseF, ht, if_false]
          rw [ihf hfind]
          rfl
    | cons u rest =>
      induction f with
      | nil => simp [findNode] at hfind
      | cons n0 fr ihf =>
        by_cases ht : (n0.text == t) = true
        · simp only [findNode, ht, if_true] at hfind
          simp only [expandOrCollapseF, ht, if_true]
          rw [ih n0.nodes e n hfind hexp]
          rfl
        · simp only [findNode, ht, if_false] at hfind
          simp only [expandOrCollapseF, ht, if_false]
          rw [ihf hfind]
          rfl

/-- A hierarchy that does not match yields no node. -/
theorem findNode_eq_none_of_matchesPath_false (f : List TreeView.Node)
    (h : List String) (hm : matchesPath f h = false) : findNode f h = none := by
  cases hf : findNode f h with
  | none => rfl
  | some n => rw [matchesPath, hf] at hm; simp at hm

/-- A fresh tree view is consistent. -/
theorem consistent_empty : Consistent emptyTreeView := by
  simp [Consistent, emptyTreeView, visibleFlatten, visibleWithPaths]

/-- Every tree-view call keeps the visible projection consistent: failing
calls leave the state alone, succeeding calls recompute the projection in
full. -/
theorem consistent_applyTreeOp (st : TreeView) (op : TreeOp)
    (hc : Consistent st) : Consistent (applyTreeOp st op) := by
  cases op with
  | addItem h cp =>
    simp only [applyTreeOp, TreeView.addItem]
    cases hm : addItemF st.m_nodes h cp with
    | some f' => simp [Consistent]
    | none => simpa [Consistent] using hc
  | removeItem h rpe =>
    simp only [applyTreeOp, TreeView.removeItem]
    cases hm : removeItemF st.m_nodes h rpe with
    | some f' => simp [Consistent]
    | none => simpa [Consistent] using hc
  | selectItem h =>
    simp only [applyTreeOp, TreeView.selectItem]
    by_cases hm : matchesPath st.m_nodes h = true
    · simpa [hm, Consistent] using hc
    · simpa [hm, Consistent] using hc
  | deselectItem => simpa [applyTreeOp, TreeView.deselectItem, Consistent] using hc
  | expandItem h =>
    simp only [applyTreeOp, TreeView.expandItem, TreeView.expandOrCollapse]
    cases hm : expandOrCollapseF st.m_nodes h true with
    | some f' => simp [Consistent]
    | none => simpa [Consistent] using hc
  | collapseItem h =>
    simp only [applyTreeOp, TreeView.collapse, TreeView.expandOrCollapse]
    cases hm : expandOrCollapseF st.m_nodes h false with
    | some f' => simp [Consistent]
    | none => simpa [Consistent] using hc
  | expandAll => simp [applyTreeOp, TreeView.expandAll, Consistent]
  | collapseAll => simp [applyTreeOp, TreeView.collapseAll, Consistent]
  | removeAllItems =>
    simp [applyTreeOp, TreeView.removeAllItems, Consistent, visibleFlatten,
      visibleWithPaths]

/-- After any sequence of tree-view calls on a fresh tree view, the stored
visible-node list is consistent with the forest. -/
theorem consistent_applyTreeOps (ops : List TreeOp) :
    Consistent (applyTreeOps emptyTreeView ops) := by
  suffices h : ∀ (st : TreeView), Consistent st → Consistent (applyTreeOps st ops) from
    h emptyTreeView consistent_empty
  induction ops with
  | nil => intro st hc; exact hc
  | cons op ops ih =>
    intro st hc
    exact ih _ (consistent_applyTreeOp st op hc)

/-- The clamp helper never exceeds the upper bound. -/
theorem ratToClampedNat_le (q : ℚ) (hi : Nat) : ratToClampedNat q hi ≤ hi := by
  unfold ratToClampedNat
  split
  · exact Nat.zero_le hi
  · exact Nat.min_le_right _ _

/-- Every value setter establishes the clamp invariant, whatever the state
it started from. -/
theorem applyOp_inv (s : Scrollbar) (op : ScrollbarOp) :
    (s.applyOp op).m_value ≤ (s.applyOp op).getMaxValue := by
  cases op with
  | setValue v =>
    simp [Scrollbar.applyOp, Scrollbar.setValue, Scrollbar.getMaxValue]
  | setMaximum m =>
    simp [Scrollbar.applyOp, Scrollbar.setMaximum, Scrollbar.getMaxValue]
  | setViewportSize v =>
    simp [Scrollbar.applyOp, Scrollbar.setViewportSize, Scrollbar.getMaxValue]

/-- Setter sequences preserve the clamp invariant. -/
theorem applyOps_inv : ∀ (ops : List ScrollbarOp) (s : Scrollbar),
    s.m_value ≤ s.getMaxValue →
    (s.applyOps ops).m_value ≤ (s.applyOps ops).getMaxValue := by
  intro ops
  induction ops with
  | nil => intro s hs; exact hs
  | cons op ops ih =>
    intro s _
    exact ih (s.applyOp op) (applyOp_inv s op)

/-- Truncated `Nat` subtraction bounds transfer to the integer
`max (a - b) 0` form. -/
theorem natCast_le_max_sub (a b v : Nat) (h : v ≤ a - b) :
    (v : ℤ) ≤ max ((a : ℤ) - (b : ℤ)) 0 := by
  rcases Nat.le_total b a with hba | hab
  · refine le_max_of_le_left ?_
    have := (Nat.cast_le (α := ℤ)).mpr h
    rwa [Nat.cast_sub hba] at this
  · have : a - b = 0 := Nat.sub_eq_zero_of_le hab
    rw [this] at h
    interval_cases v
    exact le_max_right _ _

/-- `mouseMoved` never changes the capture bookkeeping. -/
theorem mouseMoved_flags (s : Scrollbar) (pos : ℚ × ℚ) :
    (s.mouseMoved pos).m_mouseDown = s.m_mouseDown
    ∧ (s.mouseMoved pos).m_mouseDownOnThumb = s.m_mouseDownOnThumb := by
  unfold Scrollbar.mouseMoved
  split <;> exact ⟨rfl, rfl⟩

/-- Batches of `mouseMoved` events never change the capture
bookkeeping. -/
theorem applyMoves_flags : ∀ (ms : List (ℚ × ℚ)) (s : Scrollbar),
    (s.applyMoves ms).m_mouseDown = s.m_mouseDown
    ∧ (s.applyMoves ms).m_mouseDownOnThumb = s.m_mouseDownOnThumb := by
  intro ms
  induction ms with
  | nil => intro s; exact ⟨rfl, rfl⟩
  | cons p ms ih =>
    intro s
    have h1 := mouseMoved_flags s p
    have h2 := ih (s.mouseMoved p)
    exact ⟨h1.1 ▸ h2.1, h1.2 ▸ h2.2⟩

/-- A press on the thumb starts a captured thumb drag. -/
theorem leftMousePressed_on_thumb (s : Scrollbar) (pos : ℚ × ℚ)
    (h : s.m_thumb.contains pos = true) :
    (s.leftMousePressed pos).m_mouseDown = true
    ∧ (s.leftMousePressed pos).m_mouseDownOnThumb = true := by
  unfold Scrollbar.leftMousePressed
  simp [h]

/-- While capture is active, `mouseMoved` stores the drag value. -/
theorem mouseMoved_drag (s : Scrollbar) (pos : ℚ × ℚ)
    (h1 : s.m_mouseDown = true) (h2 : s.m_mouseDownOnThumb = true) :
    (s.mouseMoved pos).m_value = s.dragValue pos := by
  unfold Scrollbar.mouseMoved
  simp [h1, h2]

/-- Without the button down, `mouseMoved` never touches the value. -/
theorem mouseMoved_value_of_up (s : Scrollbar) (pos : ℚ × ℚ)
    (h : s.m_mouseDown = false) :
    (s.mouseMoved pos).m_value = s.m_value := by
  unfold Scrollbar.mouseMoved
  simp [h]

/-- Without the button down, whole batches of `mouseMoved` events never
touch the value. -/
theorem applyMoves_value_of_up : ∀ (ms : List (ℚ × ℚ)) (s : Scrollbar),
    s.m_mouseDown = false → (s.applyMoves ms).m_value = s.m_value := by
  intro ms
  induction ms with
  | nil => intro s _; rfl
  | cons p ms ih =>
    intro s h
    have hd : (s.mouseMoved p).m_mouseDown = false := (mouseMoved_flags s p).1 ▸ h
    calc (s.applyMoves (p :: ms)).m_value
        = ((s.mouseMoved p).applyMoves ms).m_value := rfl
      _ = (s.mouseMoved p).m_value := ih (s.mouseMoved p) hd
      _ = s.m_value := mouseMoved_value_of_up s p h

/-- Claim C1: for every scrollbar and every sequence of `setValue`,
`setMaximum` and `setViewportSize` calls in any order, after each call the
state satisfies `0 ≤ value ≤ max(maximum - viewportSize, 0)`; setters
clamp rather than fail, and no intermediate invariant-violating state is
observable between calls (the state after every prefix ending in a setter
call satisfies the bound). -/
theorem scrollbar_setter_clamp_invariant (s : Scrollbar) (op : ScrollbarOp)
    (ops : List ScrollbarOp) :
    0 ≤ (((s.applyOp op).applyOps ops).m_value : ℤ)
    ∧ (((s.applyOp op).applyOps ops).m_value : ℤ)
        ≤ max ((((s.applyOp op).applyOps ops).m_maximum : ℤ)
            - (((s.applyOp op).applyOps ops).m_viewportSize : ℤ)) 0 := by
  have hinv := applyOps_inv ops (s.applyOp op) (applyOp_inv s op)
  simp only [Scrollbar.getMaxValue] at hinv
  exact ⟨Int.natCast_nonneg _, natCast_le_max_sub _ _ _ hinv⟩

/-- Claim C2, counterexample: the claim asserts that every node with
`expanded = false` itself appears in the visible projection; in the
forest whose collapsed root "A" holds a collapsed child "B", the node "B"
has `expanded = false` yet does not appear, because its ancestor is also
collapsed. -/
theorem treeview_collapsed_node_hidden_counterexample :
    pathNode sampleForestCC 0 [0] = some (TreeView.Node.mk "B" false [])
    ∧ (TreeView.Node.mk "B" false []).expanded = false
    ∧ (TreeView.Node.mk "B" false []) ∉ visibleFlatten sampleForestCC := by
  refine ⟨rfl, rfl, ?_⟩
  simp [sampleForestCC, visibleFlatten, visibleWithPaths]

/-- Claim C2, amended: the stored visible-node list always equals the
depth-first pre-order flattening that includes a node and then its
children only if `expanded` (recomputed in full by every call); a node
with `expanded = false` appears itself provided all its proper ancestors
are expanded; and no descendant of a collapsed node ever appears. -/
theorem treeview_visible_projection_amended :
    (∀ ops : List TreeOp,
      (applyTreeOps emptyTreeView ops).m_visibleNodes
        = visibleFlatten (applyTreeOps emptyTreeView ops).m_nodes)
    ∧ (∀ (f : List TreeView.Node) (i : Nat) (p : List Nat) (n : TreeView.Node),
        pathNode f i p = some n → n.expanded = false → ancOk f i p = true →
        ((i, p), n) ∈ visibleWithPaths f)
    ∧ (∀ (f : List TreeView.Node) (i : Nat) (p q : List Nat)
          (n m : TreeView.Node),
        pathNode f i p = some n → n.expanded = false →
        pathNode f i q = some m → p <+: q → p ≠ q →
        ((i, q), m) ∉ visibleWithPaths f) := by
  refine ⟨fun ops => consistent_applyTreeOps ops, ?_, ?_⟩
  · intro f i p n hp _ ha
    exact (mem_vwp_iff f i p n).mpr ⟨hp, ha⟩
  · intro f i p q n m hp hexp hq hpre hne hmem
    rw [mem_vwp_iff] at hmem
    have hx := ancOk_expanded_of_strict_ancestor p f i q n hmem.2 hp hpre hne
    rw [hexp] at hx
    exact absurd hx (by simp)

/-- Claim C2, witness: in the forest with collapsed root "A" over
collapsed child "B", the root (whose ancestors are trivially all
expanded) appears in the projection, while the descendant "B" of the
collapsed root does not. -/
theorem treeview_visible_projection_amended_witness :
    (pathNode sampleForestCC 0 []
        = some (TreeView.Node.mk "A" false [TreeView.Node.mk "B" false []])
      ∧ ancOk sampleForestCC 0 [] = true
      ∧ ((0, ([] : List Nat)),
          TreeView.Node.mk "A" false [TreeView.Node.mk "B" false []])
            ∈ visibleWithPaths sampleForestCC)
    ∧ (pathNode sampleForestCC 0 [0] = some (TreeView.Node.mk "B" false [])
      ∧ ([] : List Nat) <+: [0]
      ∧ ((0, [0]), TreeView.Node.mk "B" false [])
            ∉ visibleWithPaths sampleForestCC) :=
  ⟨⟨rfl, rfl,
    treeview_visible_projection_amended.2.1 sampleForestCC 0 [] _ rfl rfl rfl⟩,
   ⟨rfl, ⟨[0], rfl⟩,
    treeview_visible_projection_amended.2.2 sampleForestCC 0 [] [0] _ _
      rfl rfl rfl ⟨[0], rfl⟩ (by decide)⟩⟩

/-- Claim C3: after the left button is pressed on the thumb, every
subsequent `mouseMoved` stores the recomputed drag value whatever the
pointer position — including positions outside the scrollbar's bounds,
since the handler performs no hit test (capture) — and after
`leftMouseReleased`, further `mouseMoved` events no longer change the
value. -/
theorem scrollbar_thumb_capture (s : Scrollbar) (p₀ p rp : ℚ × ℚ)
    (ms ms₂ : List (ℚ × ℚ)) (h : s.m_thumb.contains p₀ = true) :
    (((s.leftMousePressed p₀).applyMoves ms).mouseMoved p).m_value
        = ((s.leftMousePressed p₀).applyMoves ms).dragValue p
    ∧ (((((s.leftMousePressed p₀).applyMoves ms).mouseMoved p).leftMouseReleased
          rp).applyMoves ms₂).m_value
        = ((((s.leftMousePressed p₀).applyMoves ms).mouseMoved
          p).leftMouseReleased rp).m_value := by
  obtain ⟨hd, ht⟩ := leftMousePressed_on_thumb s p₀ h
  obtain ⟨hd', ht'⟩ := applyMoves_flags ms (s.leftMousePressed p₀)
  refine ⟨mouseMoved_drag _ p (hd'.trans hd) (ht'.trans ht), ?_⟩
  exact applyMoves_value_of_up ms₂ _ rfl

/-- Claim C3, witness: on the concrete sample scrollbar, a press at
(8, 10) inside the 16x20 thumb captures the pointer; a later move to
(100, 300), far outside the widget, still stores the drag value, and
after release a further move leaves the value alone. -/
theorem scrollbar_thumb_capture_witness :
    sampleScrollbar.m_thumb.contains (8, 10) = true
    ∧ ((((sampleScrollbar.leftMousePressed (8, 10)).applyMoves
            [((3 : ℚ), (30 : ℚ))]).mouseMoved (100, 300)).m_value
          = ((sampleScrollbar.leftMousePressed (8, 10)).applyMoves
            [((3 : ℚ), (30 : ℚ))]).dragValue (100, 300)
        ∧ (((((sampleScrollbar.leftMousePressed (8, 10)).applyMoves
              [((3 : ℚ), (30 : ℚ))]).mouseMoved (100, 300)).leftMouseReleased
              (0, 0)).applyMoves [((5 : ℚ), (50 : ℚ))]).m_value
          = ((((sampleScrollbar.leftMousePressed (8, 10)).applyMoves
              [((3 : ℚ), (30 : ℚ))]).mouseMoved (100, 300)).leftMouseReleased
              (0, 0)).m_value) :=
  ⟨by norm_num [sampleScrollbar, defaultScrollbar, FloatRect.contains],
   scrollbar_thumb_capture sampleScrollbar (8, 10) (100, 300) (0, 0)
     [((3 : ℚ), (30 : ℚ))] [((5 : ℚ), (50 : ℚ))]
     (by norm_num [sampleScrollbar, defaultScrollbar, FloatRect.contains])⟩

/-- Claim C4: on an empty tree view, `addItem ["A","B"] true` returns
`true` and `getNodes` then yields exactly one root "A" with one child
"B"; `removeItem ["A","B"] true` afterwards returns `true` and `getNodes`
yields the empty list, the emptied parent "A" being removed as well. -/
theorem treeview_add_remove_ab :
    (emptyTreeView.addItem ["A", "B"] true).2 = true
    ∧ (emptyTreeView.addItem ["A", "B"] true).1.getNodes
        = [TreeView.Node.mk "A" true [TreeView.Node.mk "B" true []]]
    ∧ ((emptyTreeView.addItem ["A", "B"] true).1.removeItem ["A", "B"] true).2 = true
    ∧ ((emptyTreeView.addItem ["A", "B"] true).1.removeItem ["A", "B"] true).1.getNodes
        = [] := by
  refine ⟨?_, ?_, ?_, ?_⟩ <;>
    simp [TreeView.addItem, TreeView.removeItem, addItemF, removeItemF,
      emptyTreeView, TreeView.getNodes]

/-- Claim C5: `leftMouseButtonNoLongerDown` forces the scrollbar back to
the idle state from any state: the thumb-drag flag, the arrow-pressed
flag, and the button-down flag are all cleared. -/
theorem scrollbar_pointer_cancel_resets (s : Scrollbar) :
    s.leftMouseButtonNoLongerDown.m_mouseDownOnThumb = false
    ∧ s.leftMouseButtonNoLongerDown.m_mouseDownOnArrow = false
    ∧ s.leftMouseButtonNoLongerDown.m_mouseDown = false :=
  ⟨rfl, rfl, rfl⟩

/-- Claim C6: while the thumb is being dragged, each `mouseMoved`
recomputes the value from the pointer position — the drag fraction times
`(maximum - viewportSize)`, rounded — clamps it to
`[0, max(maximum - viewportSize, 0)]`, and the `ValueChanged` signal is
emitted (with the new value) exactly when the new value differs from the
stored one. -/
theorem scrollbar_drag_value_signal (s : Scrollbar) (pos : ℚ × ℚ)
    (h1 : s.m_mouseDown = true) (h2 : s.m_mouseDownOnThumb = true) :
    (s.mouseMoved pos).m_value
        = ratToClampedNat (s.dragFrac pos * (s.getMaxValue : ℚ)) s.getMaxValue
    ∧ (s.mouseMoved pos).m_value ≤ s.getMaxValue
    ∧ s.mouseMovedEmits pos
        = (if (s.mouseMoved pos).m_value = s.m_value then []
           else [(s.mouseMoved pos).m_value]) := by
  have hv := mouseMoved_drag s pos h1 h2
  refine ⟨hv, ?_, ?_⟩
  · rw [hv]
    exact ratToClampedNat_le _ _
  · unfold Scrollbar.mouseMovedEmits
    rw [hv]
    by_cases heq : s.dragValue pos = s.m_value
    · simp [h1, h2, heq]
    · simp [h1, h2, heq, bne_iff_ne]

/-- Claim C6, witness: the concrete dragging scrollbar at pointer
position (8, 100). -/
theorem scrollbar_drag_value_signal_witness :
    sampleDragging.m_mouseDown = true
    ∧ sampleDragging.m_mouseDownOnThumb = true
    ∧ ((sampleDragging.mouseMoved (8, 100)).m_value
          = ratToClampedNat
              (sampleDragging.dragFrac (8, 100) * (sampleDragging.getMaxValue : ℚ))
              sampleDragging.getMaxValue
        ∧ (sampleDragging.mouseMoved (8, 100)).m_value ≤ sampleDragging.getMaxValue
        ∧ sampleDragging.mouseMovedEmits (8, 100)
            = (if (sampleDragging.mouseMoved (8, 100)).m_value
                  = sampleDragging.m_value then []
               else [(sampleDragging.mouseMoved (8, 100)).m_value])) :=
  ⟨rfl, rfl, scrollbar_drag_value_signal sampleDragging (8, 100) rfl rfl⟩

/-- Claim C7, counterexample: the claim asserts that `addItem` with
`createParents = false` returns `false` for every non-matching hierarchy;
but on a tree holding only the root "A", the hierarchy ["A", "B"] does
not match the forest, and `addItem ["A","B"] false` nevertheless returns
`true` — the parent "A" exists and only the new leaf "B" is missing. -/
theorem treeview_additem_nonmatching_counterexample :
    matchesPath sampleTreeA.m_nodes ["A", "B"] = false
    ∧ (sampleTreeA.addItem ["A", "B"] false).2 = true := by
  refine ⟨?_, ?_⟩
  · simp [matchesPath, findNode, sampleTreeA]
  · simp [TreeView.addItem, addItemF, sampleTreeA]

/-- Claim C7, amended: `removeItem` and `selectItem` return `false` and
leave the whole state (forest, visible projection and selection)
unchanged whenever the hierarchy does not match; `addItem` with
`createParents = false` does so whenever the parent prefix of the
hierarchy (all segments but the last) does not match. -/
theorem treeview_lookup_miss_no_mutation :
    (∀ (st : TreeView) (h : List String) (rpe : Bool),
      matchesPath st.m_nodes h = false → st.removeItem h rpe = (st, false))
    ∧ (∀ (st : TreeView) (h : List String),
      matchesPath st.m_nodes h = false → st.selectItem h = (st, false))
    ∧ (∀ (st : TreeView) (t u : String) (rest : List String),
      matchesPath st.m_nodes ((t :: u :: rest).dropLast) = false →
      st.addItem (t :: u :: rest) false = (st, false)) := by
  refine ⟨?_, ?_, ?_⟩
  · intro st h rpe hm
    have hn := removeItemF_not_found h st.m_nodes rpe
      (findNode_eq_none_of_matchesPath_false _ _ hm)
    simp [TreeView.removeItem, hn]
  · intro st h hm
    simp [TreeView.selectItem, hm]
  · intro st t u rest hm
    have hn := addItemF_parent_not_found rest t u st.m_nodes
      (findNode_eq_none_of_matchesPath_false _ _ hm)
    simp [TreeView.addItem, hn]

/-- Claim C7, witness: on the tree holding only "A", removing, selecting
or (parents-off) adding under the non-existent "X" fails with the state
untouched. -/
theorem treeview_lookup_miss_no_mutation_witness :
    (matchesPath sampleTreeA.m_nodes ["X"] = false
      ∧ sampleTreeA.removeItem ["X"] true = (sampleTreeA, false))
    ∧ sampleTreeA.selectItem ["X"] = (sampleTreeA, false)
    ∧ (matchesPath sampleTreeA.m_nodes (["X", "Y"].dropLast) = false
      ∧ sampleTreeA.addItem ["X", "Y"] false = (sampleTreeA, false)) :=
  ⟨⟨by simp [matchesPath, findNode, sampleTreeA],
    treeview_lookup_miss_no_mutation.1 sampleTreeA ["X"] true
      (by simp [matchesPath, findNode, sampleTreeA])⟩,
   treeview_lookup_miss_no_mutation.2.1 sampleTreeA ["X"]
     (by simp [matchesPath, findNode, sampleTreeA]),
   ⟨by simp [matchesPath, findNode, sampleTreeA],
    treeview_lookup_miss_no_mutation.2.2 sampleTreeA "X" "Y" []
      (by simp [matchesPath, findNode, sampleTreeA])⟩⟩

/-- Claim C8: collapsing an already-collapsed node is idempotent: the
state — and hence the `getNodes` output and every sibling node — is left
completely unchanged, and the internal `expandOrCollapse` dispatch
returns the defined boolean `false` (no change happened; the public
`collapse` wrapper itself returns no value, as in the header). -/
theorem treeview_collapse_idempotent (st : TreeView) (h : List String)
    (n : TreeView.Node) (hfind : findNode st.m_nodes h = some n)
    (hexp : n.expanded = false) :
    st.collapse h = st
    ∧ (expandOrCollapseF st.m_nodes h false).isSome = false := by
  have hnone := expandOrCollapseF_already h st.m_nodes false n hfind hexp
  constructor
  · simp [TreeView.collapse, TreeView.expandOrCollapse, hnone]
  · simp [hnone]

/-- Claim C8, witness: collapsing the already-collapsed root "A" of the
concrete collapsed tree changes nothing. -/
theorem treeview_collapse_idempotent_witness :
    (findNode sampleTreeCollapsed.m_nodes ["A"]
        = some (TreeView.Node.mk "A" false [TreeView.Node.mk "B" true []])
      ∧ (TreeView.Node.mk "A" false [TreeView.Node.mk "B" true []]).expanded = false)
    ∧ (sampleTreeCollapsed.collapse ["A"] = sampleTreeCollapsed
      ∧ (expandOrCollapseF sampleTreeCollapsed.m_nodes ["A"] false).isSome = false) :=
  ⟨⟨by simp [findNode, sampleTreeCollapsed], rfl⟩,
   treeview_collapse_idempotent sampleTreeCollapsed ["A"]
     (TreeView.Node.mk "A" false [TreeView.Node.mk "B" true []])
     (by simp [findNode, sampleTreeCollapsed]) rfl⟩

/-- Claim C9: calling `setSize` with an explicit size disables a label's
auto-size mode — `getAutoSize` returns `false` afterwards — while a
freshly constructed label has `getAutoSize = true`. -/
theorem label_setsize_disables_autosize (l : Label) (size : ℚ × ℚ) :
    (l.setSize size).getAutoSize = false ∧ defaultLabel.getAutoSize = true :=
  ⟨rfl, rfl⟩

/-- Claim C10: a default-constructed scrollbar has value 0, maximum 10,
viewport size 1, scroll amount 1, auto-hide on and vertical orientation,
and this initial state already satisfies
`0 ≤ value ≤ max(maximum - viewportSize, 0)`. -/
theorem scrollbar_default_state :
    defaultScrollbar.m_value = 0
    ∧ defaultScrollbar.m_maximum = 10
    ∧ defaultScrollbar.m_viewportSize = 1
    ∧ defaultScrollbar.m_scrollAmount = 1
    ∧ defaultScrollbar.m_autoHide = true
    ∧ defaultScrollbar.m_verticalScroll = true
    ∧ 0 ≤ (defaultScrollbar.m_value : ℤ)
    ∧ (defaultScrollbar.m_value : ℤ)
        ≤ max ((defaultScrollbar.m_maximum : ℤ)
            - (defaultScrollbar.m_viewportSize : ℤ)) 0 := by
  refine ⟨rfl, rfl, rfl, rfl, rfl, rfl, by decide, by decide⟩
